import Mathlib

/-!
Shallow embedding of the PCI/PCIe configuration-space routing core of the
propolis VMM, together with proofs about it.

Two generations of the core are present in the repository and both are
embedded here:
* `SrcPci` embeds `src/pci/mod.rs` (the legacy `PciBus` with its inline PIO
  decoding, endpoint registry and INTx routing);
* `HwPci` embeds `lib/propolis/src/hw/pci/mod.rs` (validated address types,
  `Bdf` display/parse, `PioCfgDecoder` and `PcieCfgDecoder`).

Machine integers are embedded as `Nat` with explicit truncation (`% 256` for
an `as u8` cast) where the Rust code truncates.  A Rust `panic!`/`assert!`
or a `.unwrap()` of `None` is embedded as the `none` case of an `Option`
result.  Buffers of bytes are `List Nat`.  The dispatch callbacks of the
decoders are embedded as explicit function parameters, and every operation
that may invoke a callback also returns the list of invocations it
performed, so that "the callback is invoked zero times" is expressible as
that list being empty.
-/

/-- Little-endian u32 read of the first four bytes of a buffer
(`byteorder::LE::read_u32`).  Only ever applied under a length-4 guard,
mirroring the call sites in the source; the catch-all arm is unreachable
there.  The `% 256` makes the u8 range of the bytes explicit. -/
def le_read_u32 (buf : List Nat) : Nat :=
  match buf with
  | b0 :: b1 :: b2 :: b3 :: _ =>
      (b0 % 256) + (b1 % 256) * 256 + (b2 % 256) * 65536 + (b3 % 256) * 16777216
  | _ => 0

/-- Little-endian u32 write into the first four bytes of a buffer
(`byteorder::LE::write_u32`, and `ReadOp::write_u32` of the common I/O
abstraction).  Only ever applied under a length-4 guard. -/
def le_write_u32 (v : Nat) (buf : List Nat) : List Nat :=
  match buf with
  | _ :: _ :: _ :: _ :: rest =>
      (v % 256) :: (v / 256 % 256) :: (v / 65536 % 256) :: (v / 16777216 % 256) :: rest
  | other => other

namespace SrcPci

/-- Mask of a PCI function number (3 bits), `src/pci/mod.rs`. -/
def MASK_FUNC : Nat := 0x07
/-- Mask of a PCI device number (5 bits), `src/pci/mod.rs`. -/
def MASK_DEV : Nat := 0x1f
/-- Mask of a PCI bus number (8 bits), `src/pci/mod.rs`. -/
def MASK_BUS : Nat := 0xff

/-- Legacy PCI configuration address port. -/
def PORT_PCI_CONFIG_ADDR : Nat := 0xcf8
/-- Legacy PCI configuration data port. -/
def PORT_PCI_CONFIG_DATA : Nat := 0xcfc

/-- Rust `PciBDF`: bus/device/function triple of `src/pci/mod.rs`.  The fields are
u8 values embedded as `Nat`. -/
structure PciBDF where
  bus : Nat
  dev : Nat
  func : Nat
deriving DecidableEq, Repr

/-- Rust `PciBDF::new`: asserts `dev <= MASK_DEV` and `func <= MASK_FUNC`
(`none` embeds the assertion failure).  The `bus <= 0xff` bound is the u8
range of the parameter, implicit in the Rust type and made explicit here. -/
def PciBDF.new (bus dev func : Nat) : Option PciBDF :=
  if bus ≤ 0xff ∧ dev ≤ MASK_DEV ∧ func ≤ MASK_FUNC then
    some ⟨bus, dev, func⟩
  else
    none

/-- The four legacy INTx pins, `repr(u8)` values 1 to 4. -/
inductive INTxPin where
  | INTA
  | INTB
  | INTC
  | INTD
deriving DecidableEq, Repr

/-- The `repr(u8)` value of an `INTxPin` (`intx_pin as u8`). -/
def INTxPin.toNat : INTxPin → Nat
  | .INTA => 1
  | .INTB => 2
  | .INTC => 3
  | .INTD => 4

/-- Rust `ReadOp` of `crate::types`: destination buffer plus offset.  The module
itself is not part of the sources; the shape is taken from its uses in
`src/pci/mod.rs` (`ro.offset`, `ro.buf`, `ReadOp::new(offset, buf)`). -/
structure ReadOp where
  offset : Nat
  buf : List Nat
deriving DecidableEq, Repr

/-- Rust `WriteOp` of `crate::types`: source buffer plus offset (see `ReadOp`). -/
structure WriteOp where
  offset : Nat
  buf : List Nat
deriving DecidableEq, Repr

/-- Rust `read_inval`: overwrite every byte of the buffer with `0xff`. -/
def read_inval (data : List Nat) : List Nat :=
  data.map (fun _ => 0xff)

/-- Rust `PciBusState`: the latched PIO configuration address and the endpoint
registry.  Endpoints (`Arc<dyn PciEndpoint>`) are abstracted by a type
parameter `δ`; their `cfg_read` handlers are passed explicitly where
needed. -/
structure PciBusState (δ : Type) where
  pio_cfg_addr : Nat
  devices : List (PciBDF × δ)
deriving DecidableEq

/-- Registry lookup, `self.devices.iter().find(|(sbdf, _)| sbdf == bdf)`. -/
def PciBusState.lookup {δ : Type} (st : PciBusState δ) (bdf : PciBDF) : Option δ :=
  (st.devices.find? (fun p => p.1 == bdf)).map (fun p => p.2)

/-- Rust `PciBusState::cfg_read`: forward to the registered endpoint (the
abstract handler `cfgR` yields the bytes the endpoint leaves in the
buffer), or fill the buffer with `0xff` when no endpoint is registered.
Returns the final buffer together with the list of endpoint invocations. -/
def PciBusState.cfg_read {δ : Type} (cfgR : δ → ReadOp → List Nat)
    (st : PciBusState δ) (bdf : PciBDF) (ro : ReadOp) :
    List Nat × List (δ × ReadOp) :=
  match st.lookup bdf with
  | some d => (cfgR d ro, [(d, ro)])
  | none => (read_inval ro.buf, [])

/-- Rust `PciBusState::cfg_write`: forward to the registered endpoint, or drop
the write when no endpoint is registered.  The Rust method borrows the
state immutably, so no state component appears in the result; the returned
list records the endpoint invocations. -/
def PciBusState.cfg_write {δ : Type} (st : PciBusState δ) (bdf : PciBDF)
    (wo : WriteOp) : List (δ × WriteOp) :=
  match st.lookup bdf with
  | some d => [(d, wo)]
  | none => []

/-- Rust `PciBusState::register`: assert the BDF is not yet present (`none`
embeds the assertion failure), then push the entry. -/
def PciBusState.register {δ : Type} (st : PciBusState δ) (bdf : PciBDF)
    (dev : δ) : Option (PciBusState δ) :=
  if st.devices.any (fun p => p.1 == bdf) then
    none
  else
    some { st with devices := st.devices ++ [(bdf, dev)] }

/-- Rust `PciBus::new`: empty registry, latched address zero. -/
def PciBus.new {δ : Type} : PciBusState δ :=
  { pio_cfg_addr := 0, devices := [] }

/-- Rust `PciBus::route_lintr`: swizzle the function number to an INTx pin via
`match (bdf.func + 1) % 4` and compute the platform line
`16 + ((4 + bdf.dev + intx_pin as u8) % 8)`.  The wildcard arm of the Rust
match is `panic!()`, embedded as `none`.  The `pic.pin_handle` lookup that
follows in the source belongs to the interrupt subsystem and is outside
this embedding; the returned pair is the `(pin id, line)` the bus computed
for it. -/
def PciBus.route_lintr (bdf : PciBDF) : Option (INTxPin × Nat) :=
  let intx_pin : Option INTxPin :=
    match (bdf.func + 1) % 4 with
    | 1 => some .INTA
    | 2 => some .INTB
    | 3 => some .INTC
    | 4 => some .INTD
    | _ => none
  intx_pin.map (fun p => (p, 16 + (4 + bdf.dev + p.toNat) % 8))

/-- Rust `PciBus::attach`: register the endpoint, then hand it the routed INTx
pin.  Either step can abort (`none`): `register` on a duplicate BDF,
`route_lintr` through its wildcard panic arm. -/
def PciBus.attach {δ : Type} (st : PciBusState δ) (bdf : PciBDF) (dev : δ) :
    Option (PciBusState δ × INTxPin × Nat) :=
  match st.register bdf dev with
  | none => none
  | some st2 =>
    match PciBus.route_lintr bdf with
    | none => none
    | some r => some (st2, r)

/-- Rust `cfg_addr_parse` of `src/pci/mod.rs`: `none` when the enable bit (bit
31) is clear; otherwise the `(PciBDF::new .., offset)` pair, the inner
`Option` being the result of the asserting constructor.  An `as u8` cast
is `% 256`. -/
def cfg_addr_parse (addr : Nat) : Option (Option PciBDF × Nat) :=
  if addr &&& 0x80000000 == 0 then
    none
  else
    let offset := addr &&& 0xff
    let func := ((addr >>> 8) % 256) &&& MASK_FUNC
    let device := ((addr >>> 11) % 256) &&& MASK_DEV
    let bus := ((addr >>> 16) % 256) &&& MASK_BUS
    some (PciBDF.new bus device func, offset)

/-- Rust `PioDev::pio_out` for `PciBus`: a write to the address port latches a
new address only when it is 4 bytes at offset 0; a write to the data port
decodes the latched address and forwards through `cfg_write`.  `none`
embeds a panic (unknown port, or the assertion inside `PciBDF::new`).
Returns the new state and the endpoint invocations. -/
def PciBus.pio_out {δ : Type} (st : PciBusState δ) (port : Nat)
    (wo : WriteOp) : Option (PciBusState δ × List (δ × WriteOp)) :=
  if port == PORT_PCI_CONFIG_ADDR then
    if wo.buf.length == 4 && wo.offset == 0 then
      some ({ st with pio_cfg_addr := le_read_u32 wo.buf }, [])
    else
      some (st, [])
  else if port == PORT_PCI_CONFIG_DATA then
    match cfg_addr_parse st.pio_cfg_addr with
    | some (some bdf, cfg_off) =>
        some (st, st.cfg_write bdf ⟨wo.offset + cfg_off, wo.buf⟩)
    | some (none, _) => none
    | none => some (st, [])
  else
    none

/-- Rust `PioDev::pio_in` for `PciBus`: a read of the address port returns the
latched address when it is 4 bytes at offset 0 and otherwise fills the
buffer with `0xff` (`read_inval`); a read of the data port decodes the
latched address and forwards through `cfg_read`, filling with `0xff` when
the enable bit is clear.  Returns the final buffer and the endpoint
invocations; `none` embeds a panic. -/
def PciBus.pio_in {δ : Type} (cfgR : δ → ReadOp → List Nat)
    (st : PciBusState δ) (port : Nat) (ro : ReadOp) :
    Option (List Nat × List (δ × ReadOp)) :=
  if port == PORT_PCI_CONFIG_ADDR then
    if ro.buf.length == 4 && ro.offset == 0 then
      some (le_write_u32 st.pio_cfg_addr ro.buf, [])
    else
      some (read_inval ro.buf, [])
  else if port == PORT_PCI_CONFIG_DATA then
    match cfg_addr_parse st.pio_cfg_addr with
    | some (some bdf, cfg_off) =>
        some (st.cfg_read cfgR bdf ⟨ro.offset + cfg_off, ro.buf⟩)
    | some (none, _) => none
    | none => some (read_inval ro.buf, [])
  else
    none

end SrcPci

namespace HwPci

/-- Mask of a PCI function number (3 bits).  Modelled from the spec: the
`bits` submodule of `lib/propolis/src/hw/pci` is absent from the sources;
the spec fixes a function number as a 3-bit identifier. -/
def MASK_FUNC : Nat := 0x07

/-- Mask of a PCI device number (5 bits).  Modelled from the spec: the
`bits` submodule is absent; the spec fixes a device number as a 5-bit
identifier. -/
def MASK_DEV : Nat := 0x1f

/-- Mask of a PCI bus number (8 bits).  Modelled from the spec: the `bits`
submodule is absent; the spec fixes a bus number as an 8-bit identifier. -/
def MASK_BUS : Nat := 0xff

/-- Mask of a per-function ECAM configuration offset.  Modelled from the
spec: the `bits` submodule is absent; the spec states that ECAM exposes
4 KiB per function, so the configuration offset is the region offset
masked with `0xFFF`. -/
def MASK_ECAM_CFG_OFFSET : Nat := 0xfff

/-- Least bus count an ECAM region may address.  Modelled from the spec:
the `bits` submodule is absent; the spec gives the platform range as
"typically [1, 256]". -/
def PCIE_MIN_BUSES_PER_ECAM_REGION : Nat := 1

/-- Greatest bus count an ECAM region may address.  Modelled from the
spec: the `bits` submodule is absent; the spec gives the platform range as
"typically [1, 256]" (256 MiB region, 16 MiB per bus). -/
def PCIE_MAX_BUSES_PER_ECAM_REGION : Nat := 256

/-- Rust `BusNum`: validated 8-bit PCI bus number. -/
structure BusNum where
  val : Nat
deriving DecidableEq, Repr

/-- Rust `BusNum::new` always succeeds on a u8; the `n <= 0xff` bound is the u8
range of the parameter, implicit in the Rust type and made explicit here. -/
def BusNum.new (n : Nat) : Option BusNum :=
  if n ≤ 0xff then some ⟨n⟩ else none

/-- Rust `DevNum`: validated 5-bit PCI device number. -/
structure DevNum where
  val : Nat
deriving DecidableEq, Repr

/-- Rust `DevNum::new`: succeeds iff the value fits in 5 bits. -/
def DevNum.new (n : Nat) : Option DevNum :=
  if n ≤ MASK_DEV then some ⟨n⟩ else none

/-- Rust `FuncNum`: validated 3-bit PCI function number. -/
structure FuncNum where
  val : Nat
deriving DecidableEq, Repr

/-- Rust `FuncNum::new`: succeeds iff the value fits in 3 bits. -/
def FuncNum.new (n : Nat) : Option FuncNum :=
  if n ≤ MASK_FUNC then some ⟨n⟩ else none

/-- Rust `BusLocation`: device/function pair. -/
structure BusLocation where
  dev : DevNum
  func : FuncNum
deriving DecidableEq, Repr

/-- Rust `BusLocation::new`: succeeds iff both sub-constructors succeed. -/
def BusLocation.new (dev func : Nat) : Option BusLocation :=
  match DevNum.new dev, FuncNum.new func with
  | some d, some f => some ⟨d, f⟩
  | _, _ => none

/-- Rust `Bdf`: bus/device/function address. -/
structure Bdf where
  bus : BusNum
  location : BusLocation
deriving DecidableEq, Repr

/-- Rust `Bdf::new`: succeeds iff both sub-constructors succeed. -/
def Bdf.new (bus dev func : Nat) : Option Bdf :=
  match BusNum.new bus, BusLocation.new dev func with
  | some b, some l => some ⟨b, l⟩
  | _, _ => none

/-- Decimal digit character for a value below ten (`core::fmt` decimal
formatting of an integer digit). -/
def digitChar : Nat → Char
  | 0 => '0'
  | 1 => '1'
  | 2 => '2'
  | 3 => '3'
  | 4 => '4'
  | 5 => '5'
  | 6 => '6'
  | 7 => '7'
  | 8 => '8'
  | 9 => '9'
  | _ => '*'

/-- Decimal digits of a natural number, most significant first, in front of
an accumulator (Rust `{}` formatting of an unsigned integer: no sign, no
leading zeros, `0` printed as `"0"`). -/
def natToDigitsAux (n : Nat) (acc : List Char) : List Char :=
  if n < 10 then
    digitChar n :: acc
  else
    natToDigitsAux (n / 10) (digitChar (n % 10) :: acc)
termination_by n
decreasing_by
  exact Nat.div_lt_self (by omega) (by omega)

/-- Decimal digit string of a natural number. -/
def natToDigits (n : Nat) : List Char :=
  natToDigitsAux n []

/-- Rust `Display for Bdf`: the string `"bus.dev.func"` in decimal, embedded as
a character list. -/
def Bdf.display (b : Bdf) : List Char :=
  natToDigits b.bus.val ++ '.' :: natToDigits b.location.dev.val
    ++ '.' :: natToDigits b.location.func.val

/-- ASCII decimal digit test. -/
def isAsciiDigit (c : Char) : Bool :=
  '0' ≤ c && c ≤ '9'

/-- Numeric value of an ASCII digit character. -/
def digitVal (c : Char) : Nat :=
  c.toNat - '0'.toNat

/-- Digit-by-digit accumulation of a decimal value: fails on the first
non-digit character. -/
def parseDigitsCore : List Char → Nat → Option Nat
  | [], acc => some acc
  | c :: cs, acc =>
      if isAsciiDigit c then parseDigitsCore cs (acc * 10 + digitVal c)
      else none

/-- Rust `usize::from_str` as used by `Bdf::from_str`: an optional leading plus
sign followed by one or more ASCII digits.  Overflow of the Rust `usize` is
not distinguished here: every input on which the Rust parse overflows has a
value far above `u8::MAX`, so `Bdf::from_str` rejects it either way (merely
with a different error message). -/
def rustParseUsize (cs : List Char) : Option Nat :=
  match cs with
  | [] => none
  | c :: rest =>
    if c = '+' then
      if rest = [] then none else parseDigitsCore rest 0
    else
      parseDigitsCore (c :: rest) 0

/-- Rust `str::split('.')`: the (possibly empty) pieces of the character
list between the dots; an empty input yields one empty piece. -/
def splitDot : List Char → List (List Char)
  | [] => [[]]
  | c :: rest =>
    if c = '.' then
      [] :: splitDot rest
    else
      match splitDot rest with
      | [] => [[c]]
      | f :: fs => (c :: f) :: fs

/-- The field loop of `Bdf::from_str`: parse every dot-separated field as a
`usize` and reject any value above `u8::MAX`, failing on the first bad
field. -/
def fromStrFields : List (List Char) → Option (List Nat)
  | [] => some []
  | f :: fs =>
    match rustParseUsize f with
    | none => none
    | some num =>
        if num > 0xff then none
        else (fromStrFields fs).map (fun rest => num :: rest)

/-- Rust `Bdf::from_str`: split on dots, run the field loop, require exactly
three fields, then `Bdf::new`.  Every Rust error path is `none`. -/
def Bdf.from_str (cs : List Char) : Option Bdf :=
  match fromStrFields (splitDot cs) with
  | none => none
  | some fields =>
    match fields with
    | [b, d, f] => Bdf.new b d f
    | _ => none

/-- Rust `RWOp` of the common I/O abstraction (`crate::common`, absent from the
sources).  Modelled from the spec: a read or write access with an offset
and a buffer; the length of the access is the length of the buffer. -/
inductive RWOp where
  | read (offset : Nat) (buf : List Nat)
  | write (offset : Nat) (buf : List Nat)
deriving DecidableEq, Repr

/-- Offset of an access. -/
def RWOp.offset : RWOp → Nat
  | .read o _ => o
  | .write o _ => o

/-- Buffer of an access. -/
def RWOp.buf : RWOp → List Nat
  | .read _ b => b
  | .write _ b => b

/-- Length of an access. -/
def RWOp.len (op : RWOp) : Nat :=
  op.buf.length

/-- Rust `ReadOp::fill(0xff)` on a whole-buffer child access: every byte of the
parent buffer becomes `0xff`.  Modelled from the spec (`crate::common` is
absent): the absent-device policy fills read buffers with ones. -/
def fillBuf (buf : List Nat) : List Nat :=
  buf.map (fun _ => 0xff)

/-- Rust `cfg_addr_parse` of `lib/propolis/src/hw/pci/mod.rs`: `none` when the
enable bit (bit 31) is clear; otherwise the `(Bdf::new .., offset)` pair,
the inner `Option` being the pre-`unwrap` constructor result (the source
calls `.unwrap()` on it; its success is proved below).  An `as u8` cast is
`% 256`. -/
def cfg_addr_parse (addr : Nat) : Option (Option Bdf × Nat) :=
  if addr &&& 0x80000000 == 0 then
    none
  else
    some
      (Bdf.new (((addr >>> 16) % 256) &&& MASK_BUS)
        (((addr >>> 11) % 256) &&& MASK_DEV)
        (((addr >>> 8) % 256) &&& MASK_FUNC),
      addr &&& 0xff)

/-- Rust `PioCfgDecoder::service_addr`: the latched-address cell is the `addr`
argument and the first component of the result.  A misaligned access
(length not 4 or offset not 0) returns early; otherwise a read copies the
latch into the buffer and a write replaces the latch. -/
def PioCfgDecoder.service_addr (addr : Nat) (rwop : RWOp) : Nat × List Nat :=
  if rwop.len ≠ 4 ∨ rwop.offset ≠ 0 then
    (addr, rwop.buf)
  else
    match rwop with
    | .read _ buf => (addr, le_write_u32 addr buf)
    | .write _ buf => (le_read_u32 buf, buf)

/-- Rust `PioCfgDecoder::service_data`: parse the latched address; when the
enable bit is clear the access is dropped.  Otherwise a child access at
`cfg_off + rwop.offset` over the whole parent buffer is dispatched through
the callback `cb`; a missed read (callback result `none`) fills the buffer
with `0xff`.  For a hit on a read, `cb` yields the bytes the device leaves
in the child buffer.  The result carries the latch (which `service_data`
never writes), the final buffer, and the callback invocations; the outer
`none` embeds the panic of the `unwrap` inside `cfg_addr_parse`. -/
def PioCfgDecoder.service_data (addr : Nat) (rwop : RWOp)
    (cb : Bdf → RWOp → Option (List Nat)) :
    Option (Nat × List Nat × List (Bdf × RWOp)) :=
  match cfg_addr_parse addr with
  | none => some (addr, rwop.buf, [])
  | some (none, _) => none
  | some (some bdf, cfg_off) =>
    let off := cfg_off + rwop.offset
    match rwop with
    | .read _ buf =>
      let cro := RWOp.read off buf
      match cb bdf cro with
      | some newbuf => some (addr, newbuf, [(bdf, cro)])
      | none => some (addr, fillBuf buf, [(bdf, cro)])
    | .write _ buf =>
      some (addr, buf, [(bdf, RWOp.write off buf)])

/-- Rust `u16::is_power_of_two`: exactly one bit set. -/
def isPowerOfTwo (n : Nat) : Bool :=
  n != 0 && (n &&& (n - 1)) == 0

/-- Rust `PcieCfgDecoder`: the stored bus mask. -/
structure PcieCfgDecoder where
  bus_mask : Nat
deriving DecidableEq, Repr

/-- Rust `PcieCfgDecoder::new`: asserts that the bus count is a power of two
within the platform range (`none` embeds the assertion failures), then
stores `bus_count - 1` as a u8. -/
def PcieCfgDecoder.new (bus_count : Nat) : Option PcieCfgDecoder :=
  if isPowerOfTwo bus_count
      ∧ PCIE_MIN_BUSES_PER_ECAM_REGION ≤ bus_count
      ∧ bus_count ≤ PCIE_MAX_BUSES_PER_ECAM_REGION then
    some ⟨(bus_count - 1) % 256⟩
  else
    none

/-- Rust `PcieCfgDecoder::decode_enhanced_cfg_offset`: extract bus (bits 20 and
up, truncated to u8 and masked with the stored bus mask), device (bits
19-15), function (bits 14-12) and the 4 KiB configuration offset.  The
first component is the pre-`unwrap` result of `Bdf::new` (its success is
proved below). -/
def PcieCfgDecoder.decode_enhanced_cfg_offset (d : PcieCfgDecoder)
    (region_offset : Nat) : Option Bdf × Nat :=
  let bus := ((region_offset >>> 20) % 256) &&& d.bus_mask
  let dev := ((region_offset >>> 15) % 256) &&& MASK_DEV
  let func := ((region_offset >>> 12) % 256) &&& MASK_FUNC
  let cfg_offset := region_offset &&& MASK_ECAM_CFG_OFFSET
  (Bdf.new bus dev func, cfg_offset)

/-- Rust `PcieCfgDecoder::service`: assert a non-zero length (`none` embeds the
assertion failure), decode the first and last byte offsets, and suppress
the access entirely when they fall on distinct BDFs (reads filled with
`0xff`, writes dropped, no dispatch).  Otherwise dispatch a child access
at the decoded configuration offset; a missed read fills with `0xff`.
Returns the final buffer and the callback invocations. -/
def PcieCfgDecoder.service (d : PcieCfgDecoder) (rwop : RWOp)
    (cb : Bdf → RWOp → Option (List Nat)) :
    Option (List Nat × List (Bdf × RWOp)) :=
  if rwop.len == 0 then
    none
  else
    match d.decode_enhanced_cfg_offset rwop.offset,
        d.decode_enhanced_cfg_offset (rwop.offset + rwop.len - 1) with
    | (some bdf, cfg_off), (some end_bdf, _) =>
      if bdf ≠ end_bdf then
        match rwop with
        | .read _ buf => some (fillBuf buf, [])
        | .write _ buf => some (buf, [])
      else
        match rwop with
        | .read _ buf =>
          let cro := RWOp.read cfg_off buf
          match cb bdf cro with
          | some newbuf => some (newbuf, [(bdf, cro)])
          | none => some (fillBuf buf, [(bdf, cro)])
        | .write _ buf =>
          some (buf, [(bdf, RWOp.write cfg_off buf)])
    | _, _ => none

end HwPci

/-! ## Helper lemmas -/

/-- Truncating to u8 before masking with a mask below 256 is the same as
masking directly. -/
theorem mod256_and_eq (x m : Nat) (h : m < 256) : x % 256 &&& m = x &&& m := by
  apply Nat.eq_of_testBit_eq
  intro i
  rw [Nat.testBit_and, Nat.testBit_and]
  by_cases hi : i < 8
  · have h256 : (256 : Nat) = 2 ^ 8 := by norm_num
    rw [h256, Nat.testBit_mod_two_pow]
    simp [hi]
  · have hm : m < 2 ^ i := by
      calc m < 256 := h
        _ = 2 ^ 8 := by norm_num
        _ ≤ 2 ^ i := Nat.pow_le_pow_right (by omega) (by omega)
    rw [Nat.testBit_lt_two_pow hm]
    simp

namespace HwPci

/-- Rust `Bdf::new` succeeds on in-range fields and yields exactly those fields. -/
theorem Bdf.new_eq_some (bus dev func : Nat) (hb : bus ≤ 0xff)
    (hd : dev ≤ MASK_DEV) (hf : func ≤ MASK_FUNC) :
    Bdf.new bus dev func = some ⟨⟨bus⟩, ⟨⟨dev⟩, ⟨func⟩⟩⟩ := by
  unfold Bdf.new BusNum.new BusLocation.new DevNum.new FuncNum.new
  simp [hb, hd, hf]

/-- A successful `Bdf::new` forces the bounds and determines the fields. -/
theorem Bdf.new_inv (bus dev func : Nat) (bdf : Bdf)
    (h : Bdf.new bus dev func = some bdf) :
    bus ≤ 0xff ∧ dev ≤ MASK_DEV ∧ func ≤ MASK_FUNC
      ∧ bdf = ⟨⟨bus⟩, ⟨⟨dev⟩, ⟨func⟩⟩⟩ := by
  unfold Bdf.new BusNum.new BusLocation.new DevNum.new FuncNum.new at h
  by_cases hb : bus ≤ 0xff <;> by_cases hd : dev ≤ MASK_DEV <;>
    by_cases hf : func ≤ MASK_FUNC <;>
    simp [hb, hd, hf] at h
  exact ⟨hb, hd, hf, h.symm⟩

/-- The `Bdf::new` inside `decode_enhanced_cfg_offset` always succeeds. -/
theorem decode_fst_eq_some (d : PcieCfgDecoder) (off : Nat) :
    (d.decode_enhanced_cfg_offset off).1
      = some ⟨⟨(off >>> 20) % 256 &&& d.bus_mask⟩,
          ⟨⟨(off >>> 15) % 256 &&& MASK_DEV⟩, ⟨(off >>> 12) % 256 &&& MASK_FUNC⟩⟩⟩ := by
  unfold PcieCfgDecoder.decode_enhanced_cfg_offset
  apply Bdf.new_eq_some
  · exact le_trans Nat.and_le_left (by omega : (off >>> 20) % 256 ≤ 0xff)
  · exact Nat.and_le_right
  · exact Nat.and_le_right

end HwPci

/-! ## Claims -/

/-- C1: the claim states that INTx routing at attach time yields
`pin_id = (func mod 4) + 1` and line `16 + ((4 + dev + pin_id) mod 8)` for
every valid BDF and never aborts.  The code instead swizzles with
`match (bdf.func + 1) % 4`, which is `0` (not `4`) whenever
`func ≡ 3 (mod 4)`, so the `4 => INTD` arm is dead code and the wildcard
`panic!()` arm fires: routing a function 3 or 7 aborts instead of yielding
INTD.  For the other function numbers the routing matches the claim, as the
last two conjuncts illustrate (`0.31.0` is the device attached by
`main.rs`, routed to INTA on line 20 exactly as the spec states). -/
theorem SrcPci.route_lintr_panics_on_func3 :
    SrcPci.PciBus.route_lintr ⟨0, 0, 3⟩ = none
    ∧ SrcPci.PciBus.route_lintr ⟨0, 0, 7⟩ = none
    ∧ SrcPci.PciBus.route_lintr ⟨0, 31, 0⟩ = some (.INTA, 20)
    ∧ SrcPci.PciBus.route_lintr ⟨0, 0, 2⟩ = some (.INTC, 23) := by
  decide

/-- C3: when the enable bit (bit 31) of the latched PIO configuration
address is clear, `service_data` invokes the dispatch callback zero times
(the invocation list is empty), leaves a read buffer exactly as it was,
and leaves the latched address unchanged. -/
theorem HwPci.service_data_enable_clear (addr : Nat) (rwop : HwPci.RWOp)
    (cb : HwPci.Bdf → HwPci.RWOp → Option (List Nat))
    (h : addr &&& 0x80000000 = 0) :
    HwPci.PioCfgDecoder.service_data addr rwop cb = some (addr, rwop.buf, []) := by
  unfold HwPci.PioCfgDecoder.service_data HwPci.cfg_addr_parse
  simp [h]

/-- C3 witness: a concrete data-port access with the enable bit clear. -/
theorem HwPci.service_data_enable_clear_witness :
    (0x71000000 : Nat) &&& 0x80000000 = 0
    ∧ HwPci.PioCfgDecoder.service_data 0x71000000
        (.read 0 [1, 2, 3, 4]) (fun _ _ => none)
      = some (0x71000000, [1, 2, 3, 4], []) :=
  ⟨by decide,
   HwPci.service_data_enable_clear 0x71000000 (.read 0 [1, 2, 3, 4])
     (fun _ _ => none) (by decide)⟩

/-- C10: the internal address decoders are total.  For every 32-bit PIO
address with the enable bit set, the `Bdf::new` inside `cfg_addr_parse`
succeeds (each extracted field is masked to its bit width), and for every
region offset the `Bdf::new` inside `decode_enhanced_cfg_offset` succeeds
for the same reason; the `unwrap` calls on them can therefore never
abort. -/
theorem HwPci.decoders_total :
    (∀ addr : Nat, addr &&& 0x80000000 ≠ 0 →
      ∃ bdf off, HwPci.cfg_addr_parse addr = some (some bdf, off))
    ∧ (∀ (d : HwPci.PcieCfgDecoder) (off : Nat),
      ∃ bdf, (d.decode_enhanced_cfg_offset off).1 = some bdf) := by
  constructor
  · intro addr h
    refine ⟨⟨⟨(addr >>> 16) % 256 &&& HwPci.MASK_BUS⟩,
      ⟨⟨(addr >>> 11) % 256 &&& HwPci.MASK_DEV⟩,
       ⟨(addr >>> 8) % 256 &&& HwPci.MASK_FUNC⟩⟩⟩, addr &&& 0xff, ?_⟩
    unfold HwPci.cfg_addr_parse
    rw [if_neg (by simpa using h)]
    rw [HwPci.Bdf.new_eq_some]
    · exact le_trans Nat.and_le_left (by omega : (addr >>> 16) % 256 ≤ 0xff)
    · exact Nat.and_le_right
    · exact Nat.and_le_right
  · intro d off
    exact ⟨_, HwPci.decode_fst_eq_some d off⟩

/-- C10 witness: both decoders at concrete inputs through the theorem. -/
theorem HwPci.decoders_total_witness :
    (0x80000800 : Nat) &&& 0x80000000 ≠ 0
    ∧ (∃ bdf off, HwPci.cfg_addr_parse 0x80000800 = some (some bdf, off))
    ∧ (∃ bdf, (HwPci.PcieCfgDecoder.decode_enhanced_cfg_offset ⟨0xff⟩ 0x00123004).1
        = some bdf) :=
  ⟨by decide,
   HwPci.decoders_total.1 0x80000800 (by decide),
   HwPci.decoders_total.2 ⟨0xff⟩ 0x00123004⟩

/-- C6: the ECAM decoder extracts bus = `(offset >> 20) & bus_mask`,
device = bits 19..15, function = bits 14..12 and configuration offset =
`offset & 0xFFF` (the intermediate `as u8` truncation is absorbed by the
masks whenever the stored bus mask fits in a u8, which `new` guarantees);
with bus_count 256 (mask `0xFF`), region offset `0x00123004` decodes to
bus 1, device 4, function 3 at configuration offset `0x004`. -/
theorem HwPci.ecam_decode_fields :
    (∀ (d : HwPci.PcieCfgDecoder) (off : Nat), d.bus_mask ≤ 0xff →
      d.decode_enhanced_cfg_offset off
        = (HwPci.Bdf.new (off >>> 20 &&& d.bus_mask) (off >>> 15 &&& 0x1f)
            (off >>> 12 &&& 0x07), off &&& 0xfff))
    ∧ HwPci.PcieCfgDecoder.decode_enhanced_cfg_offset ⟨0xff⟩ 0x00123004
        = (HwPci.Bdf.new 0x01 0x04 0x03, 0x004) := by
  constructor
  · intro d off h
    unfold HwPci.PcieCfgDecoder.decode_enhanced_cfg_offset
    rw [mod256_and_eq _ _ (by omega), mod256_and_eq _ _ (by decide),
      mod256_and_eq _ _ (by decide)]
    rfl
  · decide

/-- C6 witness: the general field extraction applied at the concrete
scenario of the spec. -/
theorem HwPci.ecam_decode_fields_witness :
    (HwPci.PcieCfgDecoder.bus_mask ⟨0xff⟩) ≤ 0xff
    ∧ HwPci.PcieCfgDecoder.decode_enhanced_cfg_offset ⟨0xff⟩ 0x00123004
        = (HwPci.Bdf.new (0x00123004 >>> 20 &&& 0xff) (0x00123004 >>> 15 &&& 0x1f)
            (0x00123004 >>> 12 &&& 0x07), 0x00123004 &&& 0xfff) :=
  ⟨by decide, HwPci.ecam_decode_fields.1 ⟨0xff⟩ 0x00123004 (by decide)⟩

/-- C4: an ECAM access of non-zero length whose start and last-byte
offsets decode to two distinct BDFs is fully suppressed: the dispatch
callback is invoked zero times (empty invocation list), a read buffer is
filled entirely with `0xff`, and a write has no effect. -/
theorem HwPci.ecam_straddle_suppressed
    (d : HwPci.PcieCfgDecoder) (cb : HwPci.Bdf → HwPci.RWOp → Option (List Nat))
    (off : Nat) (buf : List Nat) (bdf end_bdf : HwPci.Bdf) (c1 c2 : Nat)
    (hlen : buf ≠ [])
    (h1 : d.decode_enhanced_cfg_offset off = (some bdf, c1))
    (h2 : d.decode_enhanced_cfg_offset (off + buf.length - 1) = (some end_bdf, c2))
    (hne : bdf ≠ end_bdf) :
    d.service (.read off buf) cb = some (buf.map (fun _ => 0xff), [])
    ∧ d.service (.write off buf) cb = some (buf, []) := by
  have hlen0 : (buf.length == 0) = false := by
    simp [List.length_eq_zero, hlen]
  constructor <;>
  · unfold HwPci.PcieCfgDecoder.service
    simp only [HwPci.RWOp.len, HwPci.RWOp.buf, HwPci.RWOp.offset, hlen0,
      Bool.false_eq_true, if_false, h1, h2, if_pos hne]
    try rfl

/-- C4 witness: the spec's straddle scenario, a 4-byte access at region
offset `0x00000FFE`, which crosses the function boundary at `0x1000`
(start decodes to function 0, last byte to function 1). -/
theorem HwPci.ecam_straddle_suppressed_witness :
    ([7, 7, 7, 7] : List Nat) ≠ []
    ∧ HwPci.PcieCfgDecoder.decode_enhanced_cfg_offset ⟨0xff⟩ 0xffe
        = (some ⟨⟨0⟩, ⟨⟨0⟩, ⟨0⟩⟩⟩, 0xffe)
    ∧ HwPci.PcieCfgDecoder.decode_enhanced_cfg_offset ⟨0xff⟩ 0x1001
        = (some ⟨⟨0⟩, ⟨⟨0⟩, ⟨1⟩⟩⟩, 0x001)
    ∧ HwPci.PcieCfgDecoder.service ⟨0xff⟩ (.read 0xffe [7, 7, 7, 7])
        (fun _ _ => some [1, 2, 3, 4])
      = some ([0xff, 0xff, 0xff, 0xff], [])
    ∧ HwPci.PcieCfgDecoder.service ⟨0xff⟩ (.write 0xffe [7, 7, 7, 7])
        (fun _ _ => some [1, 2, 3, 4])
      = some ([7, 7, 7, 7], []) :=
  ⟨by decide, by decide, by decide,
   (HwPci.ecam_straddle_suppressed ⟨0xff⟩ (fun _ _ => some [1, 2, 3, 4])
     0xffe [7, 7, 7, 7] ⟨⟨0⟩, ⟨⟨0⟩, ⟨0⟩⟩⟩ ⟨⟨0⟩, ⟨⟨0⟩, ⟨1⟩⟩⟩ 0xffe 0x001
     (by decide) (by decide) (by decide) (by decide)).1,
   (HwPci.ecam_straddle_suppressed ⟨0xff⟩ (fun _ _ => some [1, 2, 3, 4])
     0xffe [7, 7, 7, 7] ⟨⟨0⟩, ⟨⟨0⟩, ⟨0⟩⟩⟩ ⟨⟨0⟩, ⟨⟨0⟩, ⟨1⟩⟩⟩ 0xffe 0x001
     (by decide) (by decide) (by decide) (by decide)).2⟩

/-- C2: a configuration access dispatched by the bus registry to a BDF
with no registered endpoint reads all-ones (the whole destination buffer
becomes `0xff`) and writes are dropped without invoking any endpoint;
with a registered endpoint the access is forwarded to exactly that
endpoint's handler.  The Rust `cfg_read`/`cfg_write` borrow the registry
immutably, so the registry itself cannot change; the empty invocation
list expresses that no endpoint state can change either. -/
theorem SrcPci.cfg_rw_absent_device_policy
    {δ : Type} (cfgR : δ → SrcPci.ReadOp → List Nat)
    (st : SrcPci.PciBusState δ) (bdf : SrcPci.PciBDF)
    (ro : SrcPci.ReadOp) (wo : SrcPci.WriteOp) :
    (st.lookup bdf = none →
      st.cfg_read cfgR bdf ro = (ro.buf.map (fun _ => 0xff), [])
      ∧ st.cfg_write bdf wo = [])
    ∧ (∀ d : δ, st.lookup bdf = some d →
      st.cfg_read cfgR bdf ro = (cfgR d ro, [(d, ro)])
      ∧ st.cfg_write bdf wo = [(d, wo)]) := by
  constructor
  · intro h
    unfold SrcPci.PciBusState.cfg_read SrcPci.PciBusState.cfg_write
    rw [h]
    exact ⟨rfl, rfl⟩
  · intro d h
    unfold SrcPci.PciBusState.cfg_read SrcPci.PciBusState.cfg_write
    rw [h]
    exact ⟨rfl, rfl⟩

/-- C2 witness: an empty registry misses (read fills `0xff`, write
dropped), and a one-entry registry forwards to its endpoint. -/
theorem SrcPci.cfg_rw_absent_device_policy_witness :
    (SrcPci.PciBusState.lookup (⟨0, []⟩ : SrcPci.PciBusState Nat) ⟨0, 1, 0⟩ = none)
    ∧ SrcPci.PciBusState.cfg_read (fun (d : Nat) _ => [d]) ⟨0, []⟩ ⟨0, 1, 0⟩ ⟨0, [4, 5]⟩
        = ([0xff, 0xff], [])
    ∧ SrcPci.PciBusState.cfg_write (⟨0, []⟩ : SrcPci.PciBusState Nat) ⟨0, 1, 0⟩ ⟨0, [4, 5]⟩ = []
    ∧ SrcPci.PciBusState.lookup ⟨0, [(⟨0, 0, 0⟩, 9)]⟩ ⟨0, 0, 0⟩ = some 9
    ∧ SrcPci.PciBusState.cfg_read (fun (d : Nat) _ => [d]) ⟨0, [(⟨0, 0, 0⟩, 9)]⟩
        ⟨0, 0, 0⟩ ⟨0, [4, 5]⟩ = ([9], [(9, ⟨0, [4, 5]⟩)])
    ∧ SrcPci.PciBusState.cfg_write ⟨0, [(⟨0, 0, 0⟩, 9)]⟩ ⟨0, 0, 0⟩ ⟨0, [4, 5]⟩
        = [(9, ⟨0, [4, 5]⟩)] :=
  ⟨by decide,
   ((SrcPci.cfg_rw_absent_device_policy (fun (d : Nat) _ => [d]) ⟨0, []⟩ ⟨0, 1, 0⟩
     ⟨0, [4, 5]⟩ ⟨0, [4, 5]⟩).1 (by decide)).1,
   ((SrcPci.cfg_rw_absent_device_policy (fun (d : Nat) _ => [d]) ⟨0, []⟩ ⟨0, 1, 0⟩
     ⟨0, [4, 5]⟩ ⟨0, [4, 5]⟩).1 (by decide)).2,
   by decide,
   ((SrcPci.cfg_rw_absent_device_policy (fun (d : Nat) _ => [d]) ⟨0, [(⟨0, 0, 0⟩, 9)]⟩
     ⟨0, 0, 0⟩ ⟨0, [4, 5]⟩ ⟨0, [4, 5]⟩).2 9 (by decide)).1,
   ((SrcPci.cfg_rw_absent_device_policy (fun (d : Nat) _ => [d]) ⟨0, [(⟨0, 0, 0⟩, 9)]⟩
     ⟨0, 0, 0⟩ ⟨0, [4, 5]⟩ ⟨0, [4, 5]⟩).2 9 (by decide)).2⟩

/-- C9 counterexample: with the platform range modelled from the spec as
[1, 256], `PcieCfgDecoder::new(1)` passes all three assertions (1 is a
power of two and lies inside the closed range), so a bus count of 1 is
accepted at construction, contrary to the claim that 0, 1 and 3 are all
rejected. -/
theorem HwPci.pcie_new_accepts_bus_count_one :
    HwPci.PcieCfgDecoder.new 1 = some ⟨0⟩ := by
  decide

/-- C9 (amended): construction rejects every bus count that is not a power
of two or lies outside the platform's closed range; in particular 0 and 3
(not powers of two) and 512 (above the maximum) are rejected, while 1 and
256 — powers of two inside the spec's typical range [1, 256] — are
accepted, with bus mask `bus_count - 1`. -/
theorem HwPci.pcie_new_validates_bus_count :
    (∀ bus_count : Nat,
      (HwPci.isPowerOfTwo bus_count = false
        ∨ bus_count < HwPci.PCIE_MIN_BUSES_PER_ECAM_REGION
        ∨ HwPci.PCIE_MAX_BUSES_PER_ECAM_REGION < bus_count) →
      HwPci.PcieCfgDecoder.new bus_count = none)
    ∧ HwPci.PcieCfgDecoder.new 0 = none
    ∧ HwPci.PcieCfgDecoder.new 3 = none
    ∧ HwPci.PcieCfgDecoder.new 512 = none
    ∧ HwPci.PcieCfgDecoder.new 1 = some ⟨0⟩
    ∧ HwPci.PcieCfgDecoder.new 256 = some ⟨0xff⟩ := by
  refine ⟨?_, by decide, by decide, by decide, by decide, by decide⟩
  intro bus_count h
  unfold HwPci.PcieCfgDecoder.new
  rw [if_neg]
  rintro ⟨hp, hmin, hmax⟩
  rcases h with h | h | h
  · rw [h] at hp
    exact Bool.false_ne_true hp
  · omega
  · omega

/-- C9 amended witness: the rejection applied at bus count 3. -/
theorem HwPci.pcie_new_validates_bus_count_witness :
    (HwPci.isPowerOfTwo 3 = false
      ∨ 3 < HwPci.PCIE_MIN_BUSES_PER_ECAM_REGION
      ∨ HwPci.PCIE_MAX_BUSES_PER_ECAM_REGION < 3)
    ∧ HwPci.PcieCfgDecoder.new 3 = none :=
  ⟨Or.inl (by decide), HwPci.pcie_new_validates_bus_count.1 3 (Or.inl (by decide))⟩

/-- C5 counterexample: the claim states that every misaligned access to
the PIO address port leaves a read buffer exactly as it was.  In the
legacy `PciBus` PIO handler a misaligned read of port `0xCF8` (here a
2-byte read) takes the `read_inval` branch and overwrites the buffer with
`0xff`, so the buffer `[0, 0]` does not survive the call. -/
theorem SrcPci.pio_addr_misaligned_read_fills :
    SrcPci.PciBus.pio_in (fun (d : Nat) _ => [d]) ⟨0, []⟩ 0xcf8 ⟨0, [0, 0]⟩
      = some ([0xff, 0xff], [])
    ∧ ([0xff, 0xff] : List Nat) ≠ [0, 0] := by
  decide

/-- C5 (amended): a misaligned access to the PIO address port (length not
4 or offset not 0) never latches a new address, never dispatches to an
endpoint, and drops writes; in `PioCfgDecoder::service_addr` a misaligned
read also leaves the buffer untouched, while in the legacy `PciBus` PIO
handler a misaligned read instead fills the caller's buffer with
`0xff`. -/
theorem pio_addr_misaligned_dropped :
    (∀ (addr : Nat) (rwop : HwPci.RWOp),
      rwop.len ≠ 4 ∨ rwop.offset ≠ 0 →
      HwPci.PioCfgDecoder.service_addr addr rwop = (addr, rwop.buf))
    ∧ (∀ (δ : Type) (st : SrcPci.PciBusState δ) (wo : SrcPci.WriteOp),
      wo.buf.length ≠ 4 ∨ wo.offset ≠ 0 →
      SrcPci.PciBus.pio_out st SrcPci.PORT_PCI_CONFIG_ADDR wo = some (st, []))
    ∧ (∀ (δ : Type) (cfgR : δ → SrcPci.ReadOp → List Nat)
        (st : SrcPci.PciBusState δ) (ro : SrcPci.ReadOp),
      ro.buf.length ≠ 4 ∨ ro.offset ≠ 0 →
      SrcPci.PciBus.pio_in cfgR st SrcPci.PORT_PCI_CONFIG_ADDR ro
        = some (ro.buf.map (fun _ => 0xff), [])) := by
  refine ⟨?_, ?_, ?_⟩
  · intro addr rwop h
    unfold HwPci.PioCfgDecoder.service_addr
    rw [if_pos h]
  · intro δ st wo h
    have hguard : (wo.buf.length == 4 && wo.offset == 0) = false := by
      rcases h with h | h <;> simp [h]
    unfold SrcPci.PciBus.pio_out
    simp [hguard]
  · intro δ cfgR st ro h
    have hguard : (ro.buf.length == 4 && ro.offset == 0) = false := by
      rcases h with h | h <;> simp [h]
    unfold SrcPci.PciBus.pio_in SrcPci.read_inval
    simp [hguard]

/-- C5 amended witness: a 2-byte access at offset 0 on the address port,
for all three operations. -/
theorem pio_addr_misaligned_dropped_witness :
    (([1, 2] : List Nat).length ≠ 4 ∨ (0 : Nat) ≠ 0)
    ∧ HwPci.PioCfgDecoder.service_addr 5 (.read 0 [1, 2]) = (5, [1, 2])
    ∧ SrcPci.PciBus.pio_out (⟨7, []⟩ : SrcPci.PciBusState Nat) SrcPci.PORT_PCI_CONFIG_ADDR
        ⟨0, [1, 2]⟩ = some (⟨7, []⟩, [])
    ∧ SrcPci.PciBus.pio_in (fun (d : Nat) _ => [d]) (⟨7, []⟩ : SrcPci.PciBusState Nat)
        SrcPci.PORT_PCI_CONFIG_ADDR ⟨0, [1, 2]⟩ = some ([0xff, 0xff], []) :=
  ⟨Or.inl (by decide),
   pio_addr_misaligned_dropped.1 5 (.read 0 [1, 2]) (Or.inl (by decide)),
   pio_addr_misaligned_dropped.2.1 Nat ⟨7, []⟩ ⟨0, [1, 2]⟩ (Or.inl (by decide)),
   pio_addr_misaligned_dropped.2.2 Nat (fun (d : Nat) _ => [d]) ⟨7, []⟩ ⟨0, [1, 2]⟩
     (Or.inl (by decide))⟩

/-- C8: attaching a second endpoint at a BDF that already has one aborts
(`register`, and hence `attach`, hits the duplicate assertion), and the
registry never holds more than one endpoint per BDF: the keys of a
registry with distinct keys stay distinct through every successful
`register`, and `PciBus::new` starts with no entries at all. -/
theorem SrcPci.double_attach_rejected :
    (∀ (δ : Type) (st : SrcPci.PciBusState δ) (bdf : SrcPci.PciBDF) (dev : δ),
      st.devices.any (fun p => p.1 == bdf) = true →
      st.register bdf dev = none ∧ SrcPci.PciBus.attach st bdf dev = none)
    ∧ (∀ (δ : Type) (st st2 : SrcPci.PciBusState δ) (bdf : SrcPci.PciBDF) (dev : δ),
      st.register bdf dev = some st2 →
      (st.devices.map Prod.fst).Nodup → (st2.devices.map Prod.fst).Nodup)
    ∧ (@SrcPci.PciBus.new Nat).devices = [] := by
  refine ⟨?_, ?_, rfl⟩
  · intro δ st bdf dev h
    have hr : st.register bdf dev = none := by
      unfold SrcPci.PciBusState.register
      rw [if_pos h]
    refine ⟨hr, ?_⟩
    unfold SrcPci.PciBus.attach
    rw [hr]
  · intro δ st st2 bdf dev h hnd
    unfold SrcPci.PciBusState.register at h
    by_cases hc : st.devices.any (fun p => p.1 == bdf) = true
    · rw [if_pos hc] at h
      cases h
    · rw [if_neg hc] at h
      cases h
      have hnotin : bdf ∉ st.devices.map Prod.fst := by
        intro hmem
        apply hc
        rw [List.any_eq_true]
        obtain ⟨p, hp, hfst⟩ := List.mem_map.1 hmem
        exact ⟨p, hp, by simp [hfst]⟩
      simp only [List.map_append, List.map_cons, List.map_nil]
      rw [List.nodup_append]
      refine ⟨hnd, List.nodup_singleton _, ?_⟩
      intro a ha hb
      simp only [List.mem_singleton] at hb
      subst hb
      exact hnotin ha

/-- C8 witness: a duplicate attach at BDF 0.0.0 is rejected, and a
successful register keeps the key list duplicate-free. -/
theorem SrcPci.double_attach_rejected_witness :
    ((⟨0, [(⟨0, 0, 0⟩, 1)]⟩ : SrcPci.PciBusState Nat).devices.any
        (fun p => p.1 == ⟨0, 0, 0⟩) = true)
    ∧ SrcPci.PciBusState.register (⟨0, [(⟨0, 0, 0⟩, 1)]⟩ : SrcPci.PciBusState Nat)
        ⟨0, 0, 0⟩ 2 = none
    ∧ SrcPci.PciBus.attach (⟨0, [(⟨0, 0, 0⟩, 1)]⟩ : SrcPci.PciBusState Nat)
        ⟨0, 0, 0⟩ 2 = none
    ∧ SrcPci.PciBusState.register (⟨0, [(⟨0, 0, 0⟩, 1)]⟩ : SrcPci.PciBusState Nat)
        ⟨0, 1, 0⟩ 2 = some ⟨0, [(⟨0, 0, 0⟩, 1), (⟨0, 1, 0⟩, 2)]⟩
    ∧ (([(⟨0, 0, 0⟩, 1), (⟨0, 1, 0⟩, 2)] : List (SrcPci.PciBDF × Nat)).map
        Prod.fst).Nodup :=
  ⟨by decide,
   (SrcPci.double_attach_rejected.1 Nat ⟨0, [(⟨0, 0, 0⟩, 1)]⟩ ⟨0, 0, 0⟩ 2 (by decide)).1,
   (SrcPci.double_attach_rejected.1 Nat ⟨0, [(⟨0, 0, 0⟩, 1)]⟩ ⟨0, 0, 0⟩ 2 (by decide)).2,
   by decide,
   SrcPci.double_attach_rejected.2.1 Nat ⟨0, [(⟨0, 0, 0⟩, 1)]⟩
     ⟨0, [(⟨0, 0, 0⟩, 1), (⟨0, 1, 0⟩, 2)]⟩ ⟨0, 1, 0⟩ 2 (by decide) (by decide)⟩

namespace HwPci

/-- Value of a digit string under left fold, used to relate the parser to
the formatter. -/
def digitsToNat (cs : List Char) (acc : Nat) : Nat :=
  cs.foldl (fun a c => a * 10 + digitVal c) acc

/-- A digit below ten formats to an ASCII digit with the same value. -/
theorem digitChar_spec (m : Nat) (h : m < 10) :
    isAsciiDigit (digitChar m) = true ∧ digitVal (digitChar m) = m := by
  interval_cases m <;> exact ⟨rfl, rfl⟩

/-- Unfolding of `natToDigitsAux` on a final digit. -/
theorem natToDigitsAux_lt (n : Nat) (acc : List Char) (h : n < 10) :
    natToDigitsAux n acc = digitChar n :: acc := by
  rw [natToDigitsAux]
  simp [h]

/-- Unfolding of `natToDigitsAux` on a number of two or more digits. -/
theorem natToDigitsAux_ge (n : Nat) (acc : List Char) (h : ¬n < 10) :
    natToDigitsAux n acc = natToDigitsAux (n / 10) (digitChar (n % 10) :: acc) := by
  rw [natToDigitsAux]
  simp [h]

/-- The digit accumulator of `natToDigitsAux` is simply appended. -/
theorem natToDigitsAux_append (n : Nat) :
    ∀ acc : List Char, natToDigitsAux n acc = natToDigits n ++ acc := by
  induction n using Nat.strong_induction_on with
  | _ n ih =>
    intro acc
    by_cases h : n < 10
    · rw [natToDigitsAux_lt n acc h]
      unfold natToDigits
      rw [natToDigitsAux_lt n [] h]
      rfl
    · have hdiv : n / 10 < n := Nat.div_lt_self (by omega) (by omega)
      rw [natToDigitsAux_ge n acc h]
      unfold natToDigits
      rw [natToDigitsAux_ge n [] h]
      rw [ih (n / 10) hdiv (digitChar (n % 10) :: acc),
        ih (n / 10) hdiv (digitChar (n % 10) :: [])]
      simp

/-- Every character of a formatted number is an ASCII digit. -/
theorem natToDigits_all_digits (n : Nat) :
    ∀ c ∈ natToDigits n, isAsciiDigit c = true := by
  induction n using Nat.strong_induction_on with
  | _ n ih =>
    unfold natToDigits
    rw [natToDigitsAux]
    by_cases h : n < 10
    · simp only [h, if_true, List.mem_singleton]
      intro c hc
      subst hc
      exact (digitChar_spec n h).1
    · have hdiv : n / 10 < n := Nat.div_lt_self (by omega) (by omega)
      simp only [h, if_false]
      rw [natToDigitsAux_append]
      intro c hc
      rcases List.mem_append.1 hc with hc | hc
      · exact ih (n / 10) hdiv c hc
      · simp only [List.mem_singleton] at hc
        subst hc
        exact (digitChar_spec (n % 10) (Nat.mod_lt _ (by omega))).1

/-- A formatted number is never the empty string. -/
theorem natToDigits_ne_nil (n : Nat) : natToDigits n ≠ [] := by
  unfold natToDigits
  rw [natToDigitsAux]
  by_cases h : n < 10
  · simp [h]
  · simp only [h, if_false]
    rw [natToDigitsAux_append]
    simp

/-- The parser accepts any all-digit string and folds up its value. -/
theorem parseDigitsCore_all_digits (cs : List Char) :
    ∀ acc : Nat, (∀ c ∈ cs, isAsciiDigit c = true) →
    parseDigitsCore cs acc = some (digitsToNat cs acc) := by
  induction cs with
  | nil => intro acc _; rfl
  | cons c rest ih =>
    intro acc h
    unfold parseDigitsCore
    rw [h c (List.mem_cons_self c rest)]
    simp only [if_true]
    rw [ih (acc * 10 + digitVal c) (fun x hx => h x (List.mem_cons_of_mem c hx))]
    rfl

/-- Folding the digits of `n` from accumulator 0 recovers `n`. -/
theorem digitsToNat_natToDigits (n : Nat) : digitsToNat (natToDigits n) 0 = n := by
  induction n using Nat.strong_induction_on with
  | _ n ih =>
    unfold natToDigits
    rw [natToDigitsAux]
    by_cases h : n < 10
    · simp only [h, if_true]
      show 0 * 10 + digitVal (digitChar n) = n
      rw [(digitChar_spec n h).2]
      omega
    · have hdiv : n / 10 < n := Nat.div_lt_self (by omega) (by omega)
      simp only [h, if_false]
      rw [natToDigitsAux_append]
      unfold digitsToNat
      rw [List.foldl_append]
      have hrec : digitsToNat (natToDigits (n / 10)) 0 = n / 10 := ih (n / 10) hdiv
      unfold digitsToNat at hrec
      rw [hrec]
      show (n / 10) * 10 + digitVal (digitChar (n % 10)) = n
      rw [(digitChar_spec (n % 10) (Nat.mod_lt _ (by omega))).2]
      omega

/-- Parsing the decimal formatting of `n` yields `n` back. -/
theorem rustParseUsize_natToDigits (n : Nat) :
    rustParseUsize (natToDigits n) = some n := by
  obtain ⟨c, rest, hcons⟩ := List.exists_cons_of_ne_nil (natToDigits_ne_nil n)
  have hdig : ∀ x ∈ natToDigits n, isAsciiDigit x = true := natToDigits_all_digits n
  have hplus : c ≠ '+' := by
    intro e
    have := hdig c (by rw [hcons]; exact List.mem_cons_self c rest)
    rw [e] at this
    exact absurd this (by decide)
  rw [hcons]
  simp only [rustParseUsize]
  rw [if_neg hplus]
  rw [← hcons, parseDigitsCore_all_digits _ 0 hdig, digitsToNat_natToDigits]

/-- An ASCII digit is not a dot. -/
theorem ne_dot_of_digit (c : Char) (h : isAsciiDigit c = true) : c ≠ '.' := by
  intro e
  rw [e] at h
  exact absurd h (by decide)

/-- Splitting a dot-free string yields that single field. -/
theorem splitDot_no_dot (xs : List Char) (h : ∀ c ∈ xs, c ≠ '.') :
    splitDot xs = [xs] := by
  induction xs with
  | nil => rfl
  | cons c cs ih =>
    simp only [splitDot]
    rw [if_neg (h c (List.mem_cons_self c cs))]
    rw [ih (fun x hx => h x (List.mem_cons_of_mem c hx))]

/-- Splitting peels off a dot-free field before a dot. -/
theorem splitDot_append (xs ys : List Char) (h : ∀ c ∈ xs, c ≠ '.') :
    splitDot (xs ++ '.' :: ys) = xs :: splitDot ys := by
  induction xs with
  | nil =>
    simp [splitDot]
  | cons c cs ih =>
    simp only [List.cons_append, splitDot, List.append_eq]
    rw [if_neg (h c (List.mem_cons_self c cs))]
    rw [ih (fun x hx => h x (List.mem_cons_of_mem c hx))]

/-- Forward computation of the field loop on a good head field. -/
theorem fromStrFields_cons_eq (f : List Char) (fs : List (List Char)) (n : Nat)
    (hp : rustParseUsize f = some n) (hle : n ≤ 0xff) (v : List Nat)
    (hrest : fromStrFields fs = some v) :
    fromStrFields (f :: fs) = some (n :: v) := by
  simp only [fromStrFields, hp, hrest]
  rw [if_neg (by omega)]
  rfl

/-- Every field accepted by the field loop parses as a `usize` at most
`u8::MAX`, pointwise. -/
theorem fromStrFields_sound (l : List (List Char)) :
    ∀ v : List Nat, fromStrFields l = some v →
    List.Forall₂ (fun cs n => rustParseUsize cs = some n ∧ n ≤ 0xff) l v := by
  induction l with
  | nil =>
    intro v h
    simp only [fromStrFields] at h
    cases h
    exact List.Forall₂.nil
  | cons f fs ih =>
    intro v h
    cases hp : rustParseUsize f with
    | none =>
      have h2 : (none : Option (List Nat)) = some v := by
        rw [← h]
        simp only [fromStrFields, hp]
      exact Option.noConfusion h2
    | some num =>
      have h2 : (if num > 0xff then none
          else (fromStrFields fs).map (fun rest => num :: rest)) = some v := by
        rw [← h]
        simp only [fromStrFields, hp]
      by_cases hgt : num > 0xff
      · rw [if_pos hgt] at h2
        exact Option.noConfusion h2
      · rw [if_neg hgt] at h2
        obtain ⟨rest, hrest, hv⟩ := Option.map_eq_some'.1 h2
        subst hv
        exact List.Forall₂.cons ⟨hp, by omega⟩ (ih rest hrest)

/-- Parsing an explicit three-field decimal string recovers the fields. -/
theorem from_str_three (b d f : Nat) (hb : b ≤ 0xff) (hd : d ≤ 0x1f)
    (hf : f ≤ 0x07) :
    Bdf.from_str (natToDigits b ++ '.' :: (natToDigits d ++ '.' :: natToDigits f))
      = some ⟨⟨b⟩, ⟨⟨d⟩, ⟨f⟩⟩⟩ := by
  unfold Bdf.from_str
  rw [splitDot_append _ _ (fun c hc => ne_dot_of_digit c (natToDigits_all_digits b c hc))]
  rw [splitDot_append _ _ (fun c hc => ne_dot_of_digit c (natToDigits_all_digits d c hc))]
  rw [splitDot_no_dot _ (fun c hc => ne_dot_of_digit c (natToDigits_all_digits f c hc))]
  rw [fromStrFields_cons_eq _ _ b (rustParseUsize_natToDigits b) hb _
    (fromStrFields_cons_eq _ _ d (rustParseUsize_natToDigits d) (by omega) _
      (fromStrFields_cons_eq _ [] f (rustParseUsize_natToDigits f) (by omega) [] rfl))]
  show Bdf.new b d f = some ⟨⟨b⟩, ⟨⟨d⟩, ⟨f⟩⟩⟩
  exact Bdf.new_eq_some b d f hb hd hf

/-- Every successfully parsed string splits into exactly three fields, each
parsing as a decimal value within its bit width. -/
theorem from_str_sound (cs : List Char) (bdf : Bdf)
    (h : Bdf.from_str cs = some bdf) :
    ∃ fb fd ff, splitDot cs = [fb, fd, ff]
      ∧ rustParseUsize fb = some bdf.bus.val ∧ bdf.bus.val ≤ 0xff
      ∧ rustParseUsize fd = some bdf.location.dev.val ∧ bdf.location.dev.val ≤ 0x1f
      ∧ rustParseUsize ff = some bdf.location.func.val ∧ bdf.location.func.val ≤ 0x07 := by
  unfold Bdf.from_str at h
  generalize hl : splitDot cs = l at h
  cases hF : fromStrFields l with
  | none =>
    rw [hF] at h
    exact Option.noConfusion h
  | some fields =>
    rw [hF] at h
    have hsound := fromStrFields_sound l fields hF
    rcases fields with _ | ⟨b, _ | ⟨d, _ | ⟨f, _ | ⟨x, rest⟩⟩⟩⟩
    · exact Option.noConfusion h
    · exact Option.noConfusion h
    · exact Option.noConfusion h
    · obtain ⟨hb, hd, hf, hbdf⟩ := Bdf.new_inv b d f bdf h
      cases hsound with
      | cons h1 htl1 =>
        cases htl1 with
        | cons h2 htl2 =>
          cases htl2 with
          | cons h3 htl3 =>
            cases htl3
            subst hbdf
            exact ⟨_, _, _, rfl, h1.1, hb, h2.1, hd, h3.1, hf⟩
    · exact Option.noConfusion h

end HwPci

/-- C7: for all u8 values `b`, `d`, `f` with `d <= 31` and `f <= 7`,
parsing the display string of `Bdf::new(b, d, f)` succeeds and returns the
same BDF; conversely every string that parses successfully consists of
exactly three dot-separated decimal fields (in the sense of
`usize::from_str`) each within its bit width, so any string violating that
shape is rejected — in particular the six ill-formed examples are. -/
theorem HwPci.bdf_display_parse_roundtrip :
    (∀ b d f : Nat, b ≤ 0xff → d ≤ 0x1f → f ≤ 0x07 →
      HwPci.Bdf.from_str (HwPci.Bdf.display ⟨⟨b⟩, ⟨⟨d⟩, ⟨f⟩⟩⟩)
        = some ⟨⟨b⟩, ⟨⟨d⟩, ⟨f⟩⟩⟩)
    ∧ (∀ (cs : List Char) (bdf : HwPci.Bdf), HwPci.Bdf.from_str cs = some bdf →
      ∃ fb fd ff, HwPci.splitDot cs = [fb, fd, ff]
        ∧ HwPci.rustParseUsize fb = some bdf.bus.val ∧ bdf.bus.val ≤ 0xff
        ∧ HwPci.rustParseUsize fd = some bdf.location.dev.val
        ∧ bdf.location.dev.val ≤ 0x1f
        ∧ HwPci.rustParseUsize ff = some bdf.location.func.val
        ∧ bdf.location.func.val ≤ 0x07)
    ∧ HwPci.Bdf.from_str ("0.0".toList) = none
    ∧ HwPci.Bdf.from_str ("0.0.0.0".toList) = none
    ∧ HwPci.Bdf.from_str ("0.32.0".toList) = none
    ∧ HwPci.Bdf.from_str ("0.0.8".toList) = none
    ∧ HwPci.Bdf.from_str ("-1.0.0".toList) = none
    ∧ HwPci.Bdf.from_str ("0.0.a".toList) = none := by
  refine ⟨?_, HwPci.from_str_sound, by decide, by decide, by decide, by decide,
    by decide, by decide⟩
  intro b d f hb hd hf
  simp only [HwPci.Bdf.display, List.append_assoc, List.cons_append]
  exact HwPci.from_str_three b d f hb hd hf

/-- C7 witness: the round trip applied at the extreme in-range BDF
255.31.7. -/
theorem HwPci.bdf_display_parse_roundtrip_witness :
    (255 : Nat) ≤ 0xff ∧ (31 : Nat) ≤ 0x1f ∧ (7 : Nat) ≤ 0x07
    ∧ HwPci.Bdf.from_str (HwPci.Bdf.display ⟨⟨255⟩, ⟨⟨31⟩, ⟨7⟩⟩⟩)
        = some ⟨⟨255⟩, ⟨⟨31⟩, ⟨7⟩⟩⟩ :=
  ⟨by decide, by decide, by decide,
   HwPci.bdf_display_parse_roundtrip.1 255 31 7 (by decide) (by decide) (by decide)⟩
